import Mathlib

/-!
Verification of the training-strategy core of the BearingFaultDiagnosis
repository (src/models/IRM.py, src/models/MCD.py, src/models/MDD.py).

The Python code is shallowly embedded: tensors of per-sample values become
lists of reals, the per-batch effect sequences of the training loops become
explicit event lists, and the mutable best-model / gradient-reversal state
becomes explicit state passing.  Autograd gradients with respect to the
single IRM scale parameter are embedded as the mathematical derivative
(`deriv`) of the loss as a function of that scalar.
-/

namespace BFD

/-! ## MDD.py: shift_log (src/models/MDD.py lines 13-15)

`def shift_log(x, offset=1e-6): return torch.log(torch.clamp(x + offset, max=1.))`

`torch.clamp(v, max=1.)` is `min v 1`; the call site uses the default
`offset = 1e-6`, embedded as the exact rational `1/1000000`. -/

noncomputable def shift_log (x : ℝ) : ℝ :=
  Real.log (min (x + 1 / 1000000) 1)

/-! ## MCD.py: classifier_discrepancy (src/models/MCD.py lines 12-13)

`return torch.mean(torch.abs(predictions1 - predictions2))`

Tensors are flattened to lists of reals; `torch.mean` divides the sum of the
elementwise absolute differences by the number of elements. -/

noncomputable def classifier_discrepancy (predictions1 predictions2 : List ℝ) : ℝ :=
  (List.zipWith (fun a b => |a - b|) predictions1 predictions2).sum /
    (List.zipWith (fun a b => |a - b|) predictions1 predictions2).length

lemma absDiff_zipWith_nonneg (l1 l2 : List ℝ) :
    0 ≤ (List.zipWith (fun a b => |a - b|) l1 l2).sum := by
  induction l1 generalizing l2 with
  | nil => simp
  | cons a t ih =>
    cases l2 with
    | nil => simp
    | cons b t2 =>
      simp only [List.zipWith_cons_cons, List.sum_cons]
      exact add_nonneg (abs_nonneg _) (ih t2)

lemma sum_map_zero_real {α : Type} (l : List α) :
    (l.map fun _ => (0 : ℝ)).sum = 0 := by
  induction l with
  | nil => simp
  | cons a t ih => simp [ih]

/-- C10: `classifier_discrepancy`, the mean absolute elementwise difference of
two prediction tensors, is symmetric in its two arguments, nonnegative for
every pair of inputs, and equal to 0 whenever the two inputs are equal (in
particular when the two classifier heads produce identical outputs). -/
theorem classifier_discrepancy_props :
    (∀ p1 p2 : List ℝ, classifier_discrepancy p1 p2 = classifier_discrepancy p2 p1) ∧
    (∀ p1 p2 : List ℝ, 0 ≤ classifier_discrepancy p1 p2) ∧
    (∀ p : List ℝ, classifier_discrepancy p p = 0) := by
  refine ⟨?_, ?_, ?_⟩
  · intro p1 p2
    unfold classifier_discrepancy
    rw [List.zipWith_comm_of_comm (fun a b => |a - b|) (fun a b => abs_sub_comm a b)]
  · intro p1 p2
    exact div_nonneg (absDiff_zipWith_nonneg p1 p2) (Nat.cast_nonneg _)
  · intro p
    unfold classifier_discrepancy
    rw [List.zipWith_same]
    simp only [sub_self, abs_zero]
    rw [sum_map_zero_real, zero_div]

lemma shift_log_of_one_le (x : ℝ) (hx : 1 ≤ x) : shift_log x = 0 := by
  unfold shift_log
  rw [min_eq_right (by linarith : (1 : ℝ) ≤ x + 1 / 1000000)]
  exact Real.log_one

/-- C1 (amended): for every input x ≥ 1, shift_log x = 0; at the boundary
points x = 0, 1, 2 the outputs are log(1e-6), 0, 0.  (The clause of the claim
asserting that every x ≤ 0 yields log(1e-6) — an epsilon floor — is false:
the clamp has no lower bound, see the counterexample.) -/
theorem shift_log_boundary :
    (∀ x : ℝ, 1 ≤ x → shift_log x = 0) ∧
    shift_log 0 = Real.log (1 / 1000000) ∧ shift_log 1 = 0 ∧ shift_log 2 = 0 := by
  refine ⟨shift_log_of_one_le, ?_, ?_, ?_⟩
  · unfold shift_log
    rw [zero_add, min_eq_left (by norm_num : (1 : ℝ) / 1000000 ≤ 1)]
  · exact shift_log_of_one_le 1 le_rfl
  · exact shift_log_of_one_le 2 (by norm_num)

/-- C1 counterexample: at the concrete input x = -1/2000000 (which is ≤ 0
before clamping), shift_log x is strictly below log(1e-6) and in particular
not equal to it, refuting both the "= log(1e-6) for x ≤ 0" clause and the
"output is never below log(1e-6)" clause of the claim. -/
theorem shift_log_below_epsilon_floor :
    shift_log (-(1 / 2000000)) < Real.log (1 / 1000000) ∧
    shift_log (-(1 / 2000000)) ≠ Real.log (1 / 1000000) := by
  have h : shift_log (-(1 / 2000000)) = Real.log (1 / 2000000) := by
    unfold shift_log
    norm_num
  have hlt : Real.log (1 / 2000000) < Real.log (1 / 1000000) :=
    Real.log_lt_log (by norm_num) (by norm_num)
  rw [h]
  exact ⟨hlt, ne_of_lt hlt⟩

/-- C1 witness: the first clause of shift_log_boundary instantiated at x = 3. -/
theorem shift_log_boundary_witness : (1 : ℝ) ≤ 3 ∧ shift_log 3 = 0 :=
  ⟨by norm_num, shift_log_boundary.1 3 (by norm_num)⟩

/-! ## Shared train() prologue: train_mode dispatch

All three strategies open `train()` with the identical if/elif chain
(src/models/IRM.py lines 44-51, src/models/MCD.py lines 31-38,
src/models/MDD.py lines 106-113):

```
if args.train_mode == 'supervised':        src = None
elif args.train_mode == 'single_source':   src = args.source_name[0]
elif args.train_mode == 'source_combine':  src = args.source_name
elif args.train_mode == 'multi_source':    raise Exception("This model cannot be trained with multi-source data.")
```

A train_mode matching no branch leaves `src` unassigned (Python raises no
error at this point); the first later read of `src` — inside the first
training batch of epoch 1, at `if src != None:` — then fails mid-epoch.
If there are no epochs or no training iterations, that read never happens
and the run completes. -/

inductive SrcSpec where
  | nosrc : SrcSpec
  | single (name : String) : SrcSpec
  | combine (names : List String) : SrcSpec
deriving DecidableEq

inductive DispatchResult where
  | ok (src : SrcSpec) : DispatchResult
  | raised (msg : String) : DispatchResult
  | fallthrough : DispatchResult
deriving DecidableEq

def trainDispatch (train_mode : String) (source_name : List String) : DispatchResult :=
  if train_mode = "supervised" then .ok .nosrc
  else if train_mode = "single_source" then .ok (.single (source_name.headD ""))
  else if train_mode = "source_combine" then .ok (.combine source_name)
  else if train_mode = "multi_source" then
    .raised "This model cannot be trained with multi-source data."
  else .fallthrough

inductive TrainOutcome where
  | errorBeforeEpochs (msg : String) : TrainOutcome
  | errorMidEpoch (epoch : ℕ) : TrainOutcome
  | completed (epochs : ℕ) : TrainOutcome
deriving DecidableEq

/-- Outcome of `train()` as a function of the dispatch result: a raised
dispatch aborts before the epoch loop; a successful dispatch runs all
`max_epoch` epochs; a fallthrough (unrecognized mode) reaches the first read
of the unassigned `src` in the first training batch of epoch 1 and fails
there mid-epoch — unless there is no epoch or no training iteration. -/
def trainRun (train_mode : String) (source_name : List String)
    (max_epoch num_iter : ℕ) : TrainOutcome :=
  match trainDispatch train_mode source_name with
  | .raised msg => .errorBeforeEpochs msg
  | .ok _ => .completed max_epoch
  | .fallthrough =>
      if max_epoch = 0 ∨ num_iter = 0 then .completed max_epoch
      else .errorMidEpoch 1

def errorAtStart : TrainOutcome → Bool
  | .errorBeforeEpochs _ => true
  | _ => false

/-- C2 counterexample: for the unsupported train_mode "typo_mode" the shared
train() prologue does not raise at the start — dispatch falls through and the
run fails only mid-epoch — refuting the claim that every invalid train_mode
raises an explicit error before any epoch runs. -/
theorem trainRun_invalid_mode_no_error_at_start :
    errorAtStart (trainRun "typo_mode" ["CWRU"] 3 5) = false ∧
    trainRun "typo_mode" ["CWRU"] 3 5 = TrainOutcome.errorMidEpoch 1 := by
  exact ⟨rfl, rfl⟩

/-- C2 (amended): in the shared train() prologue of all three strategies,
train_mode = "multi_source" raises the explicit error "This model cannot be
trained with multi-source data." immediately, before any epoch runs; any
other unrecognized train_mode value does NOT raise at the start: `src` stays
unassigned and the run fails mid-epoch at the first read of `src` in the
first training batch (when at least one epoch and one training iteration
exist). -/
theorem trainRun_multi_source_errors_before_epochs :
    (∀ (source_name : List String) (max_epoch num_iter : ℕ),
      trainRun "multi_source" source_name max_epoch num_iter =
        TrainOutcome.errorBeforeEpochs
          "This model cannot be trained with multi-source data.") ∧
    (∀ (mode : String) (source_name : List String) (max_epoch num_iter : ℕ),
      mode ≠ "supervised" → mode ≠ "single_source" →
      mode ≠ "source_combine" → mode ≠ "multi_source" →
      1 ≤ max_epoch → 1 ≤ num_iter →
      trainRun mode source_name max_epoch num_iter =
        TrainOutcome.errorMidEpoch 1) := by
  constructor
  · intro source_name max_epoch num_iter
    rfl
  · intro mode source_name max_epoch num_iter h1 h2 h3 h4 he hn
    unfold trainRun trainDispatch
    rw [if_neg h1, if_neg h2, if_neg h3, if_neg h4]
    have h : ¬ (max_epoch = 0 ∨ num_iter = 0) := by omega
    rw [if_neg h]

/-- C2 witness: the second clause of trainRun_multi_source_errors_before_epochs
instantiated at the concrete unrecognized mode "typo2", one epoch, one
iteration. -/
theorem trainRun_multi_source_witness :
    (("typo2" : String) ≠ "supervised" ∧ ("typo2" : String) ≠ "single_source" ∧
     ("typo2" : String) ≠ "source_combine" ∧ ("typo2" : String) ≠ "multi_source" ∧
     1 ≤ 1 ∧ 1 ≤ 1) ∧
    trainRun "typo2" [] 1 1 = TrainOutcome.errorMidEpoch 1 :=
  ⟨by decide,
   trainRun_multi_source_errors_before_epochs.2 "typo2" [] 1 1
     (by decide) (by decide) (by decide) (by decide) le_rfl le_rfl⟩

/-! ## Shared epoch bookkeeping: best-model record

All three strategies run, at the end of each validation phase
(src/models/IRM.py lines 123-128, src/models/MCD.py lines 150-155,
src/models/MDD.py lines 189-194):

```
new_acc = epoch_acc['Target Data']/num_iter
if new_acc >= best_acc:
    best_acc = new_acc
    best_epoch = epoch
```

starting from `best_acc = 0.0`, `best_epoch = 0`, with `epoch` running over
`range(1, max_epoch+1)`.  The state (best_acc, best_epoch) is threaded
through the list of per-epoch validation accuracies (exact rationals in the
embedding); it is touched nowhere else in the loop. -/

def bestStep (best : ℚ × ℕ) (p : ℕ × ℚ) : ℚ × ℕ :=
  if best.1 ≤ p.2 then (p.2, p.1) else best

def bestRecordAux (epoch : ℕ) (best : ℚ × ℕ) : List ℚ → ℚ × ℕ
  | [] => best
  | a :: rest => bestRecordAux (epoch + 1) (bestStep best (epoch, a)) rest

def bestRecord (accs : List ℚ) : ℚ × ℕ :=
  bestRecordAux 1 (0, 0) accs

lemma bestStep_fst_le (best : ℚ × ℕ) (p : ℕ × ℚ) : best.1 ≤ (bestStep best p).1 := by
  unfold bestStep
  split
  · assumption
  · exact le_rfl

lemma bestRecordAux_fst_le (accs : List ℚ) :
    ∀ (e : ℕ) (best : ℚ × ℕ), best.1 ≤ (bestRecordAux e best accs).1 := by
  induction accs with
  | nil => intro e best; exact le_rfl
  | cons a rest ih =>
    intro e best
    exact le_trans (bestStep_fst_le best (e, a)) (ih (e + 1) (bestStep best (e, a)))

lemma bestRecordAux_append (l1 l2 : List ℚ) :
    ∀ (e : ℕ) (best : ℚ × ℕ),
      bestRecordAux e best (l1 ++ l2) =
        bestRecordAux (e + l1.length) (bestRecordAux e best l1) l2 := by
  induction l1 with
  | nil => intro e best; simp [bestRecordAux]
  | cons a rest ih =>
    intro e best
    show bestRecordAux (e + 1) (bestStep best (e, a)) (rest ++ l2) = _
    rw [ih (e + 1) (bestStep best (e, a))]
    have h : e + 1 + rest.length = e + (a :: rest).length := by
      simp [List.length_cons]
      omega
    rw [h]
    rfl

lemma bestRecordAux_of_forall_lt (accs : List ℚ) :
    ∀ (e : ℕ) (best : ℚ × ℕ), (∀ x ∈ accs, x < best.1) →
      bestRecordAux e best accs = best := by
  induction accs with
  | nil => intro e best _; rfl
  | cons a rest ih =>
    intro e best h
    have ha : ¬ best.1 ≤ a := not_le.mpr (h a (List.mem_cons_self a rest))
    show bestRecordAux (e + 1) (bestStep best (e, a)) rest = best
    rw [bestStep, if_neg ha]
    exact ih (e + 1) best (fun x hx => h x (List.mem_cons_of_mem a hx))

lemma bestRecordAux_argmax_latest (accs : List ℚ) :
    ∀ (j e : ℕ) (best : ℚ × ℕ),
      j < accs.length →
      best.1 ≤ accs.getD j 0 →
      (∀ k, k < accs.length → accs.getD k 0 ≤ accs.getD j 0) →
      (∀ k, j < k → k < accs.length → accs.getD k 0 < accs.getD j 0) →
      bestRecordAux e best accs = (accs.getD j 0, e + j) := by
  induction accs with
  | nil => intro j e best hj; exact absurd hj (Nat.not_lt_zero j)
  | cons a rest ih =>
    intro j e best hj hle hmax hstrict
    match j with
    | 0 =>
      have hgd : (a :: rest).getD 0 0 = a := rfl
      rw [hgd] at hle ⊢
      show bestRecordAux (e + 1) (bestStep best (e, a)) rest = (a, e + 0)
      rw [bestStep, if_pos hle]
      have hrest : ∀ x ∈ rest, x < (((a : ℚ), e).1 : ℚ) := by
        intro x hx
        obtain ⟨n, rfl⟩ := List.mem_iff_get.mp hx
        have h1 := hstrict (n.1 + 1) (Nat.succ_pos n.1) (Nat.succ_lt_succ n.2)
        have h2 : (a :: rest).getD (n.1 + 1) 0 = rest.get n := by
          show rest.getD n.1 0 = rest.get n
          simp [List.getD_eq_getElem?_getD, List.getElem?_eq_getElem n.2]
        rw [h2] at h1
        exact h1
      rw [bestRecordAux_of_forall_lt rest (e + 1) ((a : ℚ), e) hrest]
      rfl
    | j' + 1 =>
      have hgd : (a :: rest).getD (j' + 1) 0 = rest.getD j' 0 := rfl
      rw [hgd] at hle ⊢
      have hj' : j' < rest.length := Nat.lt_of_succ_lt_succ hj
      have ha_le : a ≤ rest.getD j' 0 := by
        have := hmax 0 (Nat.succ_pos _)
        rwa [hgd] at this
      have hstep : (bestStep best (e, a)).1 ≤ rest.getD j' 0 := by
        rw [bestStep]
        split
        · exact ha_le
        · exact hle
      have hmax' : ∀ k, k < rest.length → rest.getD k 0 ≤ rest.getD j' 0 := by
        intro k hk
        have := hmax (k + 1) (Nat.succ_lt_succ hk)
        rwa [hgd] at this
      have hstrict' : ∀ k, j' < k → k < rest.length → rest.getD k 0 < rest.getD j' 0 := by
        intro k hjk hk
        have := hstrict (k + 1) (Nat.succ_lt_succ hjk) (Nat.succ_lt_succ hk)
        rwa [hgd] at this
      show bestRecordAux (e + 1) (bestStep best (e, a)) rest = (rest.getD j' 0, e + (j' + 1))
      rw [ih j' (e + 1) (bestStep best (e, a)) hj' hstep hmax' hstrict']
      have : e + 1 + j' = e + (j' + 1) := by omega
      rw [this]

/-- C3: the best-model record, updated only at the end of each validation
phase with `new_acc >= best_acc`, has monotone non-decreasing best accuracy
across epochs (first clause: over any two prefixes of the run), and when an
epoch's accuracy ties the running maximum the record moves to the later
epoch: if position j (0-based) holds a maximal accuracy and every later
accuracy is strictly smaller, the final record is exactly
(that accuracy, epoch j+1) — so among tied maxima the latest epoch wins. -/
theorem bestRecord_monotone_tie_latest :
    (∀ (accs : List ℚ) (i j : ℕ), i ≤ j →
      (bestRecord (accs.take i)).1 ≤ (bestRecord (accs.take j)).1) ∧
    (∀ (accs : List ℚ) (j : ℕ), j < accs.length →
      0 ≤ accs.getD j 0 →
      (∀ k, k < accs.length → accs.getD k 0 ≤ accs.getD j 0) →
      (∀ k, j < k → k < accs.length → accs.getD k 0 < accs.getD j 0) →
      bestRecord accs = (accs.getD j 0, j + 1)) := by
  constructor
  · intro accs i j hij
    have hj : j = i + (j - i) := by omega
    rw [hj, List.take_add]
    simp only [bestRecord]
    rw [bestRecordAux_append]
    exact bestRecordAux_fst_le _ _ _
  · intro accs j hj h0 hmax hstrict
    rw [bestRecord, bestRecordAux_argmax_latest accs j 1 (0, 0) hj h0 hmax hstrict]
    rw [Nat.add_comm 1 j]

/-- C3 witness: two epochs with identical validation accuracy 1; the tie
clause applied at j = 1 (the later epoch) gives best record (1, epoch 2). -/
theorem bestRecord_tie_witness :
    ((1 : ℕ) < 2 ∧ (0 : ℚ) ≤ [(1 : ℚ), 1].getD 1 0 ∧
      (∀ k, k < 2 → [(1 : ℚ), 1].getD k 0 ≤ [(1 : ℚ), 1].getD 1 0)) ∧
    bestRecord [(1 : ℚ), 1] = (1, 2) :=
  ⟨⟨by decide, by decide, by decide⟩,
    (bestRecord_monotone_tie_latest.2 [(1 : ℚ), 1] 1 (by decide) (by decide)
      (by decide)
      (fun k h1 h2 => absurd h2 (Nat.not_lt.mpr (Nat.succ_le_of_lt h1)))).trans
      (by decide)⟩

/-! ## MCD.py: per-iteration effect sequence (src/models/MCD.py lines 81-128)

The body of one training iteration is a straight-line sequence of tensor /
optimizer effects; it is embedded as a list of events, transcribed
statement by statement.  The inner `for k in range(4)` loop becomes four
repetitions of its body. -/

inductive MCDOpt where
  | G : MCDOpt
  | C : MCDOpt
deriving DecidableEq

inductive MCDEvent where
  | zero_grad (o : MCDOpt) : MCDEvent
  | forward_joint : MCDEvent
  | forward_target : MCDEvent
  | compute_loss_step1 : MCDEvent
  | compute_loss_step2 : MCDEvent
  | compute_loss_step3 : MCDEvent
  | backward : MCDEvent
  | opt_step (o : MCDOpt) : MCDEvent
deriving DecidableEq

/-- Lines 84-100: zero both, joint forward of cat(source,target) through
G→C1 and G→C2, joint supervised loss, backward, G steps then C steps. -/
def mcdStep1 : List MCDEvent :=
  [.zero_grad .G, .zero_grad .C, .forward_joint, .compute_loss_step1,
   .backward, .opt_step .G, .opt_step .C]

/-- Lines 102-116: zero both, fresh joint forward, supervised loss minus
weighted discrepancy of softmaxed target halves, backward, only C steps. -/
def mcdStep2 : List MCDEvent :=
  [.zero_grad .G, .zero_grad .C, .forward_joint, .compute_loss_step2,
   .backward, .opt_step .C]

/-- Lines 118-128, loop body: zero G, forward target-only batch, weighted
discrepancy loss, backward, only G steps. -/
def mcdStep3Body : List MCDEvent :=
  [.zero_grad .G, .forward_target, .compute_loss_step3, .backward, .opt_step .G]

/-- One MCD training iteration: step 1, then step 2, then the step-3 body
repeated 4 times (`for k in range(4)`). -/
def mcdIteration : List MCDEvent :=
  mcdStep1 ++ mcdStep2 ++ (List.replicate 4 mcdStep3Body).flatten

/-- Line 93: `loss = F.cross_entropy(y_1, source_labels) + F.cross_entropy(y_2, source_labels)`. -/
def mcd_step1_loss (ce1 ce2 : ℝ) : ℝ := ce1 + ce2

/-- Lines 112-113: `loss = CE(y1_s) + CE(y2_s) - classifier_discrepancy(y1_t, y2_t) * tradeoff[0]`. -/
def mcd_step2_loss (ce1 ce2 disc t0 : ℝ) : ℝ := ce1 + ce2 - disc * t0

/-- Line 125: `loss = loss_mcd * tradeoff[0]`. -/
def mcd_step3_loss (disc t0 : ℝ) : ℝ := disc * t0

/-- C4: every MCD training iteration is exactly the ordered sequence
step 1 ++ step 2 ++ 4 repetitions of the step-3 body; in step 1 backward
precedes the G and C optimizer steps and both optimizers step; in step 2
only the classifier optimizer steps (no G step), with its loss equal to
the supervised cross-entropy minus tradeoff[0] times the discrepancy; in
each of the 4 step-3 repetitions only G's optimizer steps, with loss
tradeoff[0] times the discrepancy. -/
theorem mcd_three_ordered_substeps :
    mcdIteration = mcdStep1 ++ mcdStep2 ++ (List.replicate 4 mcdStep3Body).flatten ∧
    (mcdStep1.count (.opt_step .G) = 1 ∧ mcdStep1.count (.opt_step .C) = 1 ∧
      mcdStep1.indexOf .backward < mcdStep1.indexOf (.opt_step .G) ∧
      mcdStep1.indexOf (.opt_step .G) < mcdStep1.indexOf (.opt_step .C)) ∧
    (mcdStep2.count (.opt_step .C) = 1 ∧ mcdStep2.count (.opt_step .G) = 0 ∧
      mcdStep2.indexOf .backward < mcdStep2.indexOf (.opt_step .C)) ∧
    (mcdStep3Body.count (.opt_step .G) = 1 ∧ mcdStep3Body.count (.opt_step .C) = 0 ∧
      mcdStep3Body.indexOf .backward < mcdStep3Body.indexOf (.opt_step .G)) ∧
    mcdIteration.count (.opt_step .G) = 5 ∧ mcdIteration.count (.opt_step .C) = 2 ∧
    (∀ ce1 ce2 disc t0 : ℝ,
      mcd_step2_loss ce1 ce2 disc t0 = mcd_step1_loss ce1 ce2 - t0 * disc) ∧
    (∀ disc t0 : ℝ, mcd_step3_loss disc t0 = t0 * disc) := by
  refine ⟨rfl, by decide, by decide, by decide, by decide, by decide, ?_, ?_⟩
  · intro ce1 ce2 disc t0
    unfold mcd_step2_loss mcd_step1_loss
    ring
  · intro disc t0
    unfold mcd_step3_loss
    ring

/-! ## MDD.py: gradient-reversal stepping (src/models/MDD.py lines 150-175, 86-90)

One MDD training iteration (lines 150-171): zero_grad; joint forward;
cls_loss; transfer_loss; total loss; `self.model.step()` — which calls
`self.grl_layer.step()` once, advancing the GRL coefficient schedule by one
step; accuracy/loss accumulation; backward; optimizer step.  A validation
iteration (lines 172-175) only forwards the target batch and accumulates
accuracy. -/

inductive MDDEvent where
  | zero_grad : MDDEvent
  | forward_joint : MDDEvent
  | compute_cls_loss : MDDEvent
  | compute_transfer_loss : MDDEvent
  | compute_total_loss : MDDEvent
  | grl_step : MDDEvent
  | accumulate : MDDEvent
  | backward : MDDEvent
  | opt_step : MDDEvent
  | forward_eval : MDDEvent
deriving DecidableEq

def mddTrainIteration : List MDDEvent :=
  [.zero_grad, .forward_joint, .compute_cls_loss, .compute_transfer_loss,
   .compute_total_loss, .grl_step, .accumulate, .backward, .opt_step]

def mddValIteration : List MDDEvent :=
  [.forward_eval, .accumulate]

/-- One epoch: the train phase runs nt training iterations, then the val
phase runs nv validation iterations (lines 129-175). -/
def mddEpoch (nt nv : ℕ) : List MDDEvent :=
  (List.replicate nt mddTrainIteration).flatten ++
    (List.replicate nv mddValIteration).flatten

/-- A full run over a list of per-epoch training-batch counts (the val batch
count nv is fixed across epochs). -/
def mddRun (ntPerEpoch : List ℕ) (nv : ℕ) : List MDDEvent :=
  (ntPerEpoch.map (fun nt => mddEpoch nt nv)).flatten

lemma count_flatten_replicate {α : Type} [DecidableEq α] (n : ℕ) (l : List α) (a : α) :
    (List.replicate n l).flatten.count a = n * l.count a := by
  induction n with
  | zero => simp
  | succ m ih =>
    rw [List.replicate_succ, List.flatten_cons, List.count_append, ih]
    ring

/-- C5: the GRL coefficient is advanced exactly once per MDD training batch,
after the total loss is computed and before backward; a validation iteration
never advances it; hence over any run the number of advancements equals the
cumulative training-batch count, independent of how batches are distributed
over epochs and of the validation batch count. -/
theorem mdd_grl_step_schedule :
    mddTrainIteration.count .grl_step = 1 ∧
    mddTrainIteration.indexOf .compute_total_loss < mddTrainIteration.indexOf .grl_step ∧
    mddTrainIteration.indexOf .grl_step < mddTrainIteration.indexOf .backward ∧
    mddValIteration.count .grl_step = 0 ∧
    (∀ (ntPerEpoch : List ℕ) (nv : ℕ),
      (mddRun ntPerEpoch nv).count .grl_step = ntPerEpoch.sum) := by
  refine ⟨by decide, by decide, by decide, by decide, ?_⟩
  intro ntPerEpoch nv
  induction ntPerEpoch with
  | nil => rfl
  | cons nt rest ih =>
    show ((mddEpoch nt nv ++ (rest.map (fun n => mddEpoch n nv)).flatten).count .grl_step) = _
    rw [List.count_append]
    have he : (mddEpoch nt nv).count .grl_step = nt := by
      unfold mddEpoch
      rw [List.count_append, count_flatten_replicate, count_flatten_replicate]
      show nt * 1 + nv * 0 = nt
      ring
    rw [he]
    show nt + (mddRun rest nv).count .grl_step = (nt :: rest).sum
    rw [ih]
    rfl

/-! ## IRM.py: InvariancePenaltyLoss.forward (src/models/IRM.py lines 19-26)

```
loss_1 = F.cross_entropy(y[::2] * self.scale, labels[::2])
loss_2 = F.cross_entropy(y[1::2] * self.scale, labels[1::2])
grad_1 = torch.autograd.grad(loss_1, [self.scale], create_graph=True)[0]
grad_2 = torch.autograd.grad(loss_2, [self.scale], create_graph=True)[0]
penalty = torch.sum(grad_1 * grad_2)
```

The prediction tensor y becomes a list of per-sample logit rows; the Python
stride-2 slices `[::2]` / `[1::2]` become `slice0` / `slice1`.
`F.cross_entropy` with its default mean reduction is
`(1/batch) * Σ_i (log Σ_j exp z_ij - z_i,label_i)`.  The autograd gradient
of a scalar loss with respect to the scalar `scale` is embedded as the
mathematical derivative `deriv` of the loss as a function of that scalar
(`create_graph=True` keeps the gradient differentiable, which the exact
derivative is wherever the loss is smooth); the gradients are 0-dimensional,
so `torch.sum(grad_1 * grad_2)` is the product of the two scalars. -/

def slice0 {α : Type} : List α → List α
  | [] => []
  | [a] => [a]
  | a :: _ :: rest => a :: slice0 rest

def slice1 {α : Type} : List α → List α
  | [] => []
  | [_] => []
  | _ :: b :: rest => b :: slice1 rest

/-- The elements of l sitting at even (0-based) indices, via index filtering
— the spec's wording "even-indexed sub-batch". -/
def evenIdx {α : Type} (l : List α) : List α :=
  (l.enum.filter (fun p => p.1 % 2 == 0)).map Prod.snd

/-- The elements of l sitting at odd (0-based) indices. -/
def oddIdx {α : Type} (l : List α) : List α :=
  (l.enum.filter (fun p => p.1 % 2 == 1)).map Prod.snd

lemma succ_parity_bool (n : ℕ) : ((n + 1) % 2 == 0) = (n % 2 == 1) := by
  rcases Nat.mod_two_eq_zero_or_one n with h | h
  · have h2 : (n + 1) % 2 = 1 := by omega
    rw [h, h2]
    rfl
  · have h2 : (n + 1) % 2 = 0 := by omega
    rw [h, h2]
    rfl

lemma enumFrom_parity_shift {α : Type} :
    ∀ (l : List α) (m : ℕ),
      (((l.enumFrom (m + 1)).filter (fun p => p.1 % 2 == 0)).map Prod.snd =
        ((l.enumFrom m).filter (fun p => p.1 % 2 == 1)).map Prod.snd) ∧
      (((l.enumFrom (m + 1)).filter (fun p => p.1 % 2 == 1)).map Prod.snd =
        ((l.enumFrom m).filter (fun p => p.1 % 2 == 0)).map Prod.snd) := by
  intro l
  induction l with
  | nil => intro m; exact ⟨rfl, rfl⟩
  | cons a t ih =>
    intro m
    have hshift : ∀ r : ℕ, (List.enumFrom r (a :: t)) = (r, a) :: List.enumFrom (r + 1) t :=
      fun r => rfl
    constructor
    · rw [hshift (m + 1), hshift m, List.filter_cons, List.filter_cons]
      have hb : ((m + 1) % 2 == 0) = (m % 2 == 1) := succ_parity_bool m
      rw [hb]
      cases hc : (m % 2 == 1) with
      | false => exact (ih (m + 1)).1
      | true =>
        simp only [if_true, List.map_cons]
        exact congrArg (a :: ·) (ih (m + 1)).1
    · rw [hshift (m + 1), hshift m, List.filter_cons, List.filter_cons]
      have hb : ((m + 1) % 2 == 1) = (m % 2 == 0) := by
        rcases Nat.mod_two_eq_zero_or_one m with h | h
        · have h2 : (m + 1) % 2 = 1 := by omega
          rw [h, h2]
          rfl
        · have h2 : (m + 1) % 2 = 0 := by omega
          rw [h, h2]
          rfl
      rw [hb]
      cases hc : (m % 2 == 0) with
      | false => exact (ih (m + 1)).2
      | true =>
        simp only [if_true, List.map_cons]
        exact congrArg (a :: ·) (ih (m + 1)).2

lemma evenIdx_cons {α : Type} (a : α) (l : List α) : evenIdx (a :: l) = a :: oddIdx l := by
  show a :: ((l.enumFrom 1).filter (fun p => p.1 % 2 == 0)).map Prod.snd =
    a :: ((l.enumFrom 0).filter (fun p => p.1 % 2 == 1)).map Prod.snd
  exact congrArg (a :: ·) (enumFrom_parity_shift l 0).1

lemma oddIdx_cons {α : Type} (a : α) (l : List α) : oddIdx (a :: l) = evenIdx l := by
  show ((l.enumFrom 1).filter (fun p => p.1 % 2 == 1)).map Prod.snd =
    ((l.enumFrom 0).filter (fun p => p.1 % 2 == 0)).map Prod.snd
  exact (enumFrom_parity_shift l 0).2

lemma slice_eq_idx {α : Type} : ∀ l : List α, slice0 l = evenIdx l ∧ slice1 l = oddIdx l
  | [] => ⟨rfl, rfl⟩
  | [a] => by
      constructor
      · show [a] = evenIdx [a]
        rw [evenIdx_cons]
        rfl
      · show ([] : List α) = oddIdx [a]
        rw [oddIdx_cons]
        rfl
  | a :: b :: rest => by
      obtain ⟨h0, h1⟩ := slice_eq_idx rest
      constructor
      · show a :: slice0 rest = evenIdx (a :: b :: rest)
        rw [evenIdx_cons, oddIdx_cons, h0]
      · show b :: slice1 rest = oddIdx (a :: b :: rest)
        rw [oddIdx_cons, evenIdx_cons, h1]

/-- F.cross_entropy on one row of logits with integer class label:
log-sum-exp of the logits minus the logit at the label. -/
noncomputable def ceLogits (z : List ℝ) (label : ℕ) : ℝ :=
  Real.log ((z.map Real.exp).sum) - z.getD label 0

/-- F.cross_entropy on a batch (default reduction 'mean'). -/
noncomputable def cross_entropy (ys : List (List ℝ)) (labels : List ℕ) : ℝ :=
  ((List.zip ys labels).map (fun p => ceLogits p.1 p.2)).sum / ys.length

/-- Tensor-times-scalar: every logit of every row scaled, as in
`y[::2] * self.scale`. -/
def scaleBatch (s : ℝ) (ys : List (List ℝ)) : List (List ℝ) :=
  ys.map (fun row => row.map (fun z => z * s))

/-- The penalty of InvariancePenaltyLoss.forward: the product (= the
torch.sum of the 0-dimensional elementwise product) of the derivatives, with
respect to the scale parameter, of the cross-entropies of the stride-2
sliced sub-batches scaled by that parameter. -/
noncomputable def invariance_penalty (y : List (List ℝ)) (labels : List ℕ)
    (scale : ℝ) : ℝ :=
  deriv (fun s => cross_entropy (scaleBatch s (slice0 y)) (slice0 labels)) scale *
    deriv (fun s => cross_entropy (scaleBatch s (slice1 y)) (slice1 labels)) scale

/-- The spec's description of the same penalty: grad_1 is the gradient with
respect to the learned scalar of the cross-entropy of the even-indexed
predictions scaled by the scalar against the even-indexed labels, grad_2 the
same for the odd-indexed sub-batch, and the penalty is their product. -/
noncomputable def invariance_penalty_described (y : List (List ℝ)) (labels : List ℕ)
    (scale : ℝ) : ℝ :=
  deriv (fun s => cross_entropy (scaleBatch s (evenIdx y)) (evenIdx labels)) scale *
    deriv (fun s => cross_entropy (scaleBatch s (oddIdx y)) (oddIdx labels)) scale

/-- C6: for every prediction tensor, label vector and scale value, the IRM
invariance penalty computed by the code (stride-2 slices y[::2], y[1::2])
equals sum(grad_1 * grad_2) as the spec describes it: the product of the
derivatives with respect to the learned scalar of the cross-entropies of the
even-indexed and odd-indexed sub-batches, each scaled by the scalar. -/
theorem invariance_penalty_eq_described (y : List (List ℝ)) (labels : List ℕ)
    (scale : ℝ) :
    invariance_penalty y labels scale = invariance_penalty_described y labels scale := by
  unfold invariance_penalty invariance_penalty_described
  rw [(slice_eq_idx y).1, (slice_eq_idx y).2,
    (slice_eq_idx labels).1, (slice_eq_idx labels).2]

/-- The invariance penalty with the even/odd sub-batch assignment exchanged:
grad_1 taken from the odd-indexed half and grad_2 from the even-indexed
half. -/
noncomputable def invariance_penalty_swapped (y : List (List ℝ)) (labels : List ℕ)
    (scale : ℝ) : ℝ :=
  deriv (fun s => cross_entropy (scaleBatch s (slice1 y)) (slice1 labels)) scale *
    deriv (fun s => cross_entropy (scaleBatch s (slice0 y)) (slice0 labels)) scale

/-- C7: swapping which half produces grad_1 and which produces grad_2 leaves
the computed penalty unchanged, since the product of the two gradients is
commutative. -/
theorem invariance_penalty_swap_symmetric (y : List (List ℝ)) (labels : List ℕ)
    (scale : ℝ) :
    invariance_penalty_swapped y labels scale = invariance_penalty y labels scale :=
  mul_comm _ _

/-! ## IRM.py: the invariance scale is outside the optimizer's reach

`InvariancePenaltyLoss.__init__` (src/models/IRM.py lines 15-17) sets
`self.scale = torch.tensor(1.).requires_grad_()` — a leaf scalar initialized
to 1.0.  `Trainset.train` (lines 53-54) constructs the single optimizer with
`self._get_optimizer(self.model)`, passing only `self.model`; `self.irm.scale`
belongs to the separate InvariancePenaltyLoss object and is never passed to
any optimizer, and no statement of the training loop assigns to it. -/

/-- The mutable training state of the IRM strategy relevant here: the
parameters of `self.model` (abstract) and the value of `self.irm.scale`. -/
structure IRMTrainState (P : Type) where
  modelParams : P
  scale : ℝ

/-- Run start: model parameters p0, scale = 1.0 (lines 15-17). -/
def irmInitState {P : Type} (p0 : P) : IRMTrainState P :=
  { modelParams := p0, scale := 1 }

/-- Modelled from the spec: `_get_optimizer` (train_utils.py, not under
src/) constructs the optimizer over exactly the parameters of the module it
is given — here `self.model` only, per "confirm no optimizer is constructed
over it".  One `optimizer.step()` therefore updates the model parameters by
some update function and touches nothing else. -/
def irmOptimizerStep {P : Type} (update : P → P) (st : IRMTrainState P) :
    IRMTrainState P :=
  { st with modelParams := update st.modelParams }

/-- A whole training run: every optimizer step of every batch applies some
(arbitrary) parameter update produced by the gradients of that batch. -/
def irmTrainingRun {P : Type} (updates : List (P → P)) (p0 : P) : IRMTrainState P :=
  updates.foldl (fun st u => irmOptimizerStep u st) (irmInitState p0)

lemma irmRun_scale_frame {P : Type} (updates : List (P → P)) :
    ∀ st : IRMTrainState P,
      (updates.foldl (fun st u => irmOptimizerStep u st) st).scale = st.scale := by
  induction updates with
  | nil => intro st; rfl
  | cons u rest ih => intro st; exact ih (irmOptimizerStep u st)

/-- C8: the IRM invariance scalar starts at 1.0 and, since the single
optimizer covers only the model's parameters, no sequence of optimizer steps
ever modifies it: after any training run it is still exactly 1.0. -/
theorem irm_scale_stays_one {P : Type} (updates : List (P → P)) (p0 : P) :
    (irmTrainingRun updates p0).scale = 1 ∧ (irmInitState p0).scale = 1 :=
  ⟨irmRun_scale_frame updates (irmInitState p0), rfl⟩

/-! ## Shared epoch metrics arithmetic

In every strategy, each phase of each epoch runs
`for i in tqdm(range(num_iter))` with `num_iter = len(self.iters[phase])`
(IRM.py lines 78-79, MCD.py lines 71-72, MDD.py lines 140-141), adds one
contribution per iteration into the running `epoch_loss[key]` /
`epoch_acc[key]` sums (starting from the defaultdict value 0.0), and at
phase end reports `epoch_X[key]/num_iter` — except MCD's 'Step 3: Minimize
discrepancy' key, reported as `epoch_loss[key]/(1.*num_iter)` (MCD.py line
143).  The per-iteration contribution is a function of the batch index. -/

/-- The running sum after n loop iterations of `epoch_X[key] += contrib(i)`. -/
noncomputable def accumulateMetric (contrib : ℕ → ℝ) : ℕ → ℝ
  | 0 => 0
  | n + 1 => accumulateMetric contrib n + contrib n

/-- The reported phase-mean value `epoch_X[key]/num_iter`. -/
noncomputable def reportedMetric (contrib : ℕ → ℝ) (num_iter : ℕ) : ℝ :=
  accumulateMetric contrib num_iter / num_iter

/-- The reported value for MCD's Step-3 key: `epoch_loss[key]/(1.*num_iter)`. -/
noncomputable def reportedMetricStep3 (contrib : ℕ → ℝ) (num_iter : ℕ) : ℝ :=
  accumulateMetric contrib num_iter / ((1 : ℝ) * num_iter)

/-- The batch indices a phase iterates over: `range(num_iter)`. -/
def phaseIterations (num_iter : ℕ) : List ℕ := List.range num_iter

lemma accumulateMetric_eq_sum (contrib : ℕ → ℝ) (n : ℕ) :
    accumulateMetric contrib n = ∑ i ∈ Finset.range n, contrib i := by
  induction n with
  | zero => rfl
  | succ m ih =>
    rw [Finset.sum_range_succ]
    show accumulateMetric contrib m + contrib m = _
    rw [ih]

/-- C9: every phase iterates exactly num_iter times (over range(num_iter)),
and every reported epoch metric — including MCD's specially printed Step-3
key — equals exactly the sum of the per-batch contributions over the phase
divided by num_iter. -/
theorem reported_metric_is_mean (contrib : ℕ → ℝ) (num_iter : ℕ) :
    (phaseIterations num_iter).length = num_iter ∧
    reportedMetric contrib num_iter =
      (∑ i ∈ Finset.range num_iter, contrib i) / num_iter ∧
    reportedMetricStep3 contrib num_iter =
      (∑ i ∈ Finset.range num_iter, contrib i) / num_iter := by
  refine ⟨List.length_range num_iter, ?_, ?_⟩
  · rw [reportedMetric, accumulateMetric_eq_sum]
  · rw [reportedMetricStep3, accumulateMetric_eq_sum, one_mul]

end BFD
